import Mathlib

/-!
Verification of the statistics engine of `astrodendro/analysis.py`.

The numeric model: IEEE floating-point values are modelled exactly by
rationals (`ℚ`), with a masked/missing sample (NaN in the value array)
modelled as `none : Option ℚ`.  `np.nansum` drops the missing entries
and sums the rest.  Real-valued derived quantities (norms, square roots,
eigenvectors) are modelled over `ℝ`; a NaN produced by `np.sqrt` of a
negative number is modelled as `none : Option ℝ`.
-/

namespace Astro

/-- Model of `np.nansum` over a 1-D float array: missing (NaN) entries are
excluded from the sum. -/
def nansum (xs : List (Option ℚ)) : ℚ :=
  (xs.filterMap id).sum

/-- Model of `ScalarStatistic.__init__`'s stored state: a value array
(`none` = NaN) and one coordinate array per positional dimension
(`indices[d]` is the d-th coordinate of each sample). -/
structure ScalarStatistic where
  values : List (Option ℚ)
  indices : List (List ℚ)

/-- Model of the constructor `ScalarStatistic(values, indices)`: the source
stores `values.astype(np.float)` (exact on our rational model) and the
index tuple, with no validation of any kind. -/
def ScalarStatistic.make (values : List (Option ℚ)) (indices : List (List ℚ)) :
    ScalarStatistic :=
  ⟨values, indices⟩

/-- Number of positional dimensions `nd = len(self.indices)`. -/
def ScalarStatistic.nd (s : ScalarStatistic) : ℕ :=
  s.indices.length

/-- The d-th coordinate array `self.indices[d]`. -/
def ScalarStatistic.coord (s : ScalarStatistic) (d : ℕ) : List ℚ :=
  s.indices.getD d []

/-- Model of `mom0`: `np.nansum(self.values)`. -/
def ScalarStatistic.mom0 (s : ScalarStatistic) : ℚ :=
  nansum s.values

/-- Model of `mom1` for dimension `d`: `np.nansum(i * self.values) / m0`
where `i` is the d-th coordinate array (the source returns the list over
all dimensions; we model the d-th entry). -/
def ScalarStatistic.mom1 (s : ScalarStatistic) (d : ℕ) : ℚ :=
  nansum (List.zipWith (fun x v => v.map (fun a => x * a)) (s.coord d) s.values)
    / s.mom0

/-- The weight array `v = self.values / mom0` of `mom2`. -/
def ScalarStatistic.wgt (s : ScalarStatistic) : List (Option ℚ) :=
  s.values.map (Option.map (fun a => a / s.mom0))

/-- The centred coordinate array `zyx[d] = self.indices[d] - mom1[d]` of
`mom2`. -/
def ScalarStatistic.zyx (s : ScalarStatistic) (d : ℕ) : List ℚ :=
  (s.coord d).map (fun x => x - s.mom1 d)

/-- The off-diagonal entry computed in the `mom2` loop body:
`np.nansum(v * zyx[i] * zyx[j])`. -/
def ScalarStatistic.mom2off (s : ScalarStatistic) (i j : ℕ) : ℚ :=
  nansum (List.zipWith3 (fun v x y => v.map (fun a => a * x * y))
    s.wgt (s.zyx i) (s.zyx j))

/-- The diagonal entry computed in the `mom2` loop:
`np.nansum(v * zyx[i] ** 2)`. -/
def ScalarStatistic.mom2diag (s : ScalarStatistic) (i : ℕ) : ℚ :=
  nansum (List.zipWith (fun v x => v.map (fun a => a * x ^ 2)) s.wgt (s.zyx i))

/-- Model of the `mom2` matrix built by the source loop: `result[i, i]`
is the diagonal sum, and for `i < j` the loop stores the off-diagonal sum
at both `result[i, j]` and `result[j, i]` (the mirroring step). -/
def ScalarStatistic.mom2 (s : ScalarStatistic) (i j : ℕ) : ℚ :=
  if i = j then s.mom2diag i
  else if i < j then s.mom2off i j
  else s.mom2off j i

/-- Model of `count`: `self.values.size`. -/
def ScalarStatistic.count (s : ScalarStatistic) : ℕ :=
  s.values.length

/-- Written from the SPEC's words, for comparison with the source's
`mom2`: entry (i, j) is the NaN-excluding sum of
`weight * (coord_i - mom1_i) * (coord_j - mom1_j)` with
`weight = value / mom0()`. -/
def specMom2Entry (s : ScalarStatistic) (i j : ℕ) : ℚ :=
  nansum (List.zipWith3 (fun w x y => w.map (fun a => a * x * y))
    s.wgt (s.zyx i) (s.zyx j))

/-- The concrete sample set of the spec's scenario: `values=[1,1,1,1]`,
`indices=([0,0,1,1],[0,1,0,1])`. -/
def blockStat : ScalarStatistic :=
  ScalarStatistic.make [some 1, some 1, some 1, some 1]
    [[0, 0, 1, 1], [0, 1, 0, 1]]

/-- Model of the `MetaData` descriptor: key, description, default value and
the strict (mandatory) flag.  Metadata values are modelled as rationals. -/
structure MetaData where
  key : String
  description : String
  default : ℚ
  strict : Bool
deriving DecidableEq

/-- A metadata record (`metadata` dict): an association list from keys to
values. -/
abbrev MDRecord : Type := List (String × ℚ)

/-- Model of `MetaData.__get__`: raise `KeyError` when the field is strict
and the key absent, otherwise `metadata.get(key, default)`. -/
def MetaData.read (m : MetaData) (md : MDRecord) : Except String ℚ :=
  if m.strict = true ∧ List.lookup m.key md = none then
    Except.error ("Required metadata item not found: " ++ m.key)
  else
    Except.ok ((List.lookup m.key md).getD m.default)

/-- The value a non-strict metadata read produces:
`metadata.get(key, default)`. -/
def mdval (m : MetaData) (md : MDRecord) : ℚ :=
  (List.lookup m.key md).getD m.default

/-- Model of `_missing_metadata`: the declared descriptors of the class
whose key is absent from the record. -/
def missing_metadata (cl : List MetaData) (md : MDRecord) : List MetaData :=
  cl.filter (fun m => (List.lookup m.key md).isNone)

/-- Model of `_warn_missing_metadata`: return silently when nothing is
missing; raise one `RuntimeError` carrying every missing strict field when
any is strict; otherwise emit one warning per missing field (modelled as
the pair of the field's key and the substituted default). -/
def warn_missing_metadata (cl : List MetaData) (md : MDRecord) :
    Except (List MetaData) (List (String × ℚ)) :=
  let missing := missing_metadata cl md
  if missing.length = 0 then Except.ok []
  else
    let required := missing.filter (fun m => m.strict)
    if required.length ≠ 0 then Except.error required
    else Except.ok (missing.map (fun m => (m.key, m.default)))

/-- The `MetaData` descriptors declared on `PPVStatistic`
(`MetaData.__init__` defaults: `default=1`, `strict=False`). -/
def dx : MetaData := ⟨"dx", "Angular length of a pixel", 1, false⟩

/-- `dv = MetaData('dv', 'Velocity channel width')`. -/
def dv : MetaData := ⟨"dv", "Velocity channel width", 1, false⟩

/-- `vaxis = MetaData('vaxis', 'Index of velocity axis (numpy convention)')`. -/
def vaxis : MetaData := ⟨"vaxis", "Index of velocity axis (numpy convention)", 1, false⟩

/-- `bmaj = MetaData('bmaj', 'Beam major axis, sigma', default=0)`. -/
def bmaj : MetaData := ⟨"bmaj", "Beam major axis, sigma", 0, false⟩

/-- `bmin = MetaData('bmin', 'Beam minor axis, sigma', default=0)`. -/
def bmin : MetaData := ⟨"bmin", "Beam minor axis, sigma", 0, false⟩

/-- `bunit = MetaData('bunit', 'Unit of intensity')`. -/
def bunit : MetaData := ⟨"bunit", "Unit of intensity", 1, false⟩

/-- `dist = MetaData('dist', 'Distance')`. -/
def dist : MetaData := ⟨"dist", "Distance", 1, false⟩

/-- The declared metadata fields of `PPVStatistic`, in declaration order. -/
def ppvFields : List MetaData := [dx, dv, vaxis, bmaj, bmin, bunit, dist]

/-- Model of a `PPVStatistic` snapshot: one `ScalarStatistic` and one
metadata record. -/
structure PPVStatistic where
  stat : ScalarStatistic
  metadata : MDRecord

/-- Model of `PPVStatistic.flux`: `fac = self.bunit * self.dx ** 2 * self.dv`
then `fac * self.stat.mom0()` (all the fields involved are non-strict, so
the descriptor reads never raise; they produce `mdval`). -/
def PPVStatistic.flux (p : PPVStatistic) : ℚ :=
  (mdval bunit p.metadata * mdval dx p.metadata ^ 2 * mdval dv p.metadata)
    * p.stat.mom0

/-- A structure handed to `ppv_catalog`: exposes a value array and an index
tuple. -/
structure Struct where
  values : List (Option ℚ)
  indices : List (List ℚ)

/-- Model of `ppv_catalog`: validate the metadata against `PPVStatistic`'s
declared fields exactly once, before any structure is processed, then map
the per-structure record computation over the structures.  The loop body
(building the dict of named quantities from a `PPVStatistic` snapshot) is
abstracted as `compute`. -/
def ppv_catalog {R : Type} (compute : Struct → R) (structures : List Struct)
    (md : MDRecord) : Except (List MetaData) (List (String × ℚ) × List R) :=
  match warn_missing_metadata ppvFields md with
  | Except.error e => Except.error e
  | Except.ok ws => Except.ok (ws, structures.map compute)

/-- Scaling every sample value by `c` (used to express linearity of `flux`
in `mom0`). -/
def scaleValues (c : ℚ) (s : ScalarStatistic) : ScalarStatistic :=
  ⟨s.values.map (Option.map (fun a => c * a)), s.indices⟩

/-! Real-valued layer: norms, direction projection, eigen-based principal
axes, and NaN-producing beam deconvolution.  `np.linalg.eig` is an external
library routine; its output (eigenpairs) enters the model as data subject
to its documented contract, stated as hypotheses of the theorems. -/

noncomputable section RealLayer

/-- The `mom2` matrix entries viewed as reals (the float matrix handed to
`np.linalg.eig` and `np.dot`). -/
def ScalarStatistic.mom2R (s : ScalarStatistic) (i j : ℕ) : ℝ :=
  (s.mom2 i j : ℝ)

/-- Model of `np.linalg.norm` of a 1-D float array. -/
def l2norm (row : List ℝ) : ℝ :=
  Real.sqrt ((row.map (fun x => x ^ 2)).sum)

/-- The effect of `row /= np.linalg.norm(row)` on one row. -/
def normalizeRow (row : List ℝ) : List ℝ :=
  row.map (fun x => x / l2norm row)

/-- Entry (k, l) of `np.dot(np.dot(w, self.mom2()), w.T)` for rows `u`, `v`
of `w`: the bilinear form `u · mom2 · v`. -/
def quadForm (s : ScalarStatistic) (u v : List ℝ) : ℝ :=
  ∑ i in Finset.range s.nd, ∑ j in Finset.range s.nd,
    u.getD i 0 * s.mom2R i j * v.getD j 0

/-- Model of `mom2_along` on a stack of direction rows: each row is
normalized, then `w · mom2 · wᵀ` is formed. -/
def mom2_alongRows (s : ScalarStatistic) (rows : List (List ℝ)) :
    List (List ℝ) :=
  let w := rows.map normalizeRow
  w.map (fun u => w.map (fun v => quadForm s u v))

/-- Model of `mom2_along` on a single direction vector: `np.atleast_2d`
makes a one-row stack and the 1×1 result is unwrapped by `np.asscalar`. -/
def mom2_along1 (s : ScalarStatistic) (direction : List ℝ) : ℝ :=
  ((mom2_alongRows s [direction]).getD 0 []).getD 0 0

/-- Model of the value returned by `paxes`: `w, v = np.linalg.eig(mom2)`
is presented as the list `eig` of (eigenvalue, eigenvector-column) pairs;
`order = np.argsort(w)` is the index list `order`; the source returns
the columns `v[:, o]` for `o` in `order[::-1]`. -/
def paxes_model (eig : List (ℝ × List ℝ)) (order : List ℕ) : List (List ℝ) :=
  order.reverse.map (fun o => (eig.getD o (0, [])).2)

/-- A heap of float arrays; an array reference is an index into the heap.
Used to model numpy's in-place mutation. -/
abbrev Store : Type := List (List ℝ)

/-- Read the array behind a reference. -/
def readArr (σ : Store) (r : ℕ) : List ℝ :=
  σ.getD r []

/-- Overwrite the array behind a reference. -/
def writeArr (σ : Store) (r : ℕ) (v : List ℝ) : Store :=
  σ.set r v

/-- Allocate a fresh array, returning the new heap and the fresh
reference. -/
def allocArr (σ : Store) (v : List ℝ) : Store × ℕ :=
  (σ ++ [v], σ.length)

/-- Model of `mom2_along` at the level of the array store, for a single
direction vector: `w = np.atleast_2d(direction).astype(np.float)`
allocates a fresh copy of the caller's array, `row /= np.linalg.norm(row)`
mutates that copy in place, and the result is computed from the mutated
copy. -/
def mom2_along_st (s : ScalarStatistic) (σ : Store) (direction : ℕ) :
    Store × ℝ :=
  let alloc := allocArr σ (readArr σ direction)
  let σ2 := writeArr alloc.1 alloc.2 (normalizeRow (readArr alloc.1 alloc.2))
  (σ2, quadForm s (readArr σ2 alloc.2) (readArr σ2 alloc.2))

/-- NaN-aware square root (`np.sqrt`): NaN on NaN or on a negative
argument, where `none` models NaN. -/
def nsqrt : Option ℝ → Option ℝ
  | none => none
  | some x => if x < 0 then none else some (Real.sqrt x)

/-- NaN-aware multiplication: NaN absorbs. -/
def nmul : Option ℝ → Option ℝ → Option ℝ
  | some x, some y => some (x * y)
  | _, _ => none

/-- Model of `sky_deconvolved_rad` in terms of the metadata beam sizes and
the `_qsplit` magnitudes `a`, `b` (and common unit `u`) of `sky_maj()` and
`sky_min()`:
`u * np.sqrt(np.sqrt(a**2 - beam) * np.sqrt(b**2 - beam))` with
`beam = self.bmaj * self.bmin` inlined. -/
def sky_deconvolved_rad (bmajv bminv u a b : ℝ) : Option ℝ :=
  nmul (some u)
    (nsqrt (nmul (nsqrt (some (a ^ 2 - bmajv * bminv)))
      (nsqrt (some (b ^ 2 - bmajv * bminv)))))

/-- Model of the tagging step of `_sky_paxes` on one axis returned by
`projected_paxes`: `a = list(a); a.insert(0, vaxis)` prepends the integer
`vaxis` to the 2-component in-plane axis. -/
def sky_paxis_tagged (vaxisv : ℕ) (a : List ℝ) : List ℝ :=
  (vaxisv : ℝ) :: a

/-- Model of the pair `(a[0], a[1])` that `sky_pa` hands to `np.arctan2`
(whose degrees-converted arctangent is the returned position angle): the
tagged major axis after `a.pop(self.vaxis)` (removal of the element at
index `vaxis`). -/
def sky_pa_args (vaxisv : ℕ) (a : List ℝ) : ℝ × ℝ :=
  let l := (sky_paxis_tagged vaxisv a).eraseIdx vaxisv
  (l.getD 0 0, l.getD 1 0)

/-- A concrete `np.linalg.eig` output for `blockStat.mom2 = [[1/4, 0],
[0, 1/4]]`: eigenvalue 1/4 with eigenvector (1, 0) and eigenvalue 1/4
with eigenvector (0, 1). -/
def blockEig : List (ℝ × List ℝ) :=
  [(1/4, [1, 0]), (1/4, [0, 1])]

end RealLayer

/-! Helper lemmas. -/

lemma zipWith3_swap23 {α β γ : Type} (f : α → β → β → γ)
    (h : ∀ v x y, f v x y = f v y x) :
    ∀ (l : List α) (xs ys : List β),
      List.zipWith3 f l xs ys = List.zipWith3 f l ys xs := by
  intro l
  induction l with
  | nil => intro xs ys; cases xs <;> cases ys <;> rfl
  | cons v l ih =>
      intro xs ys
      cases xs with
      | nil => cases ys <;> rfl
      | cons x xs =>
          cases ys with
          | nil => rfl
          | cons y ys => simp [List.zipWith3, h, ih]

lemma zipWith3_diag {α β γ : Type} (f : α → β → β → γ) :
    ∀ (l : List α) (xs : List β),
      List.zipWith3 f l xs xs = List.zipWith (fun v x => f v x x) l xs := by
  intro l
  induction l with
  | nil => intro xs; cases xs <;> rfl
  | cons v l ih =>
      intro xs
      cases xs with
      | nil => rfl
      | cons x xs => simp [List.zipWith3, ih]

lemma zipWith_congr_fn {α β γ : Type} (f g : α → β → γ)
    (h : ∀ v x, f v x = g v x) :
    ∀ (l : List α) (xs : List β),
      List.zipWith f l xs = List.zipWith g l xs := by
  intro l
  induction l with
  | nil => intro xs; rfl
  | cons v l ih =>
      intro xs
      cases xs with
      | nil => rfl
      | cons x xs => simp [h, ih]

lemma mom2off_comm (s : ScalarStatistic) (i j : ℕ) :
    s.mom2off i j = s.mom2off j i := by
  unfold ScalarStatistic.mom2off
  have h : ∀ (v : Option ℚ) (x y : ℚ),
      Option.map (fun a => a * x * y) v = Option.map (fun a => a * y * x) v := by
    intro v x y
    have hxy : (fun a : ℚ => a * x * y) = fun a => a * y * x := by
      funext a; ring
    rw [hxy]
  rw [zipWith3_swap23 _ h]

lemma mom2diag_eq_off (s : ScalarStatistic) (i : ℕ) :
    s.mom2diag i = s.mom2off i i := by
  unfold ScalarStatistic.mom2diag ScalarStatistic.mom2off
  rw [zipWith3_diag]
  rw [zipWith_congr_fn (fun v x => Option.map (fun a => a * x ^ 2) v)
    (fun v x => Option.map (fun a => a * x * x) v)]
  intro v x
  have : (fun a : ℚ => a * x ^ 2) = fun a => a * x * x := by
    funext a; ring
  rw [this]

lemma specMom2Entry_eq_off (s : ScalarStatistic) (i j : ℕ) :
    specMom2Entry s i j = s.mom2off i j := rfl

lemma nansum_scale (c : ℚ) (l : List (Option ℚ)) :
    nansum (l.map (Option.map (fun a => c * a))) = c * nansum l := by
  induction l with
  | nil => simp [nansum]
  | cons v l ih =>
      cases v with
      | none => simpa [nansum, List.filterMap_cons] using ih
      | some a =>
          simp only [nansum, List.map_cons, Option.map_some', List.filterMap_cons,
            id] at ih ⊢
          rw [List.sum_cons, List.sum_cons, mul_add, ih]

lemma warn_missing_eq (cl : List MetaData) (md : MDRecord) :
    warn_missing_metadata cl md =
      if (missing_metadata cl md).filter (fun m => m.strict) = [] then
        Except.ok ((missing_metadata cl md).map (fun m => (m.key, m.default)))
      else
        Except.error ((missing_metadata cl md).filter (fun m => m.strict)) := by
  unfold warn_missing_metadata
  by_cases h0 : (missing_metadata cl md).length = 0
  · have he : missing_metadata cl md = [] := List.length_eq_zero.mp h0
    simp [he]
  · by_cases hr : ((missing_metadata cl md).filter (fun m => m.strict)).length = 0
    · have he : (missing_metadata cl md).filter (fun m => m.strict) = [] :=
        List.length_eq_zero.mp hr
      simp [h0, hr, he]
    · have he : ¬ (missing_metadata cl md).filter (fun m => m.strict) = [] := by
        intro h
        exact hr (by rw [h]; rfl)
      simp [h0, hr, he]

lemma list_sq_sum_getD (v : List ℝ) :
    (v.map (fun x => x ^ 2)).sum = ∑ i in Finset.range v.length, v.getD i 0 ^ 2 := by
  induction v with
  | nil => simp
  | cons a t ih =>
      rw [List.map_cons, List.sum_cons, List.length_cons, Finset.sum_range_succ']
      simp only [List.getD_cons_succ, List.getD_cons_zero]
      rw [ih]; ring

lemma unit_normalizeRow (v : List ℝ) (h : (v.map (fun x => x ^ 2)).sum = 1) :
    normalizeRow v = v := by
  unfold normalizeRow l2norm
  rw [h, Real.sqrt_one]
  simp

lemma mom2_along1_eq (s : ScalarStatistic) (v : List ℝ) :
    mom2_along1 s v = quadForm s (normalizeRow v) (normalizeRow v) := rfl

lemma quadForm_eigvec (s : ScalarStatistic) (lam : ℝ) (v : List ℝ)
    (hlen : v.length = s.nd)
    (hunit : (v.map (fun x => x ^ 2)).sum = 1)
    (heq : ∀ i, i < s.nd →
      ∑ j in Finset.range s.nd, s.mom2R i j * v.getD j 0 = lam * v.getD i 0) :
    quadForm s v v = lam := by
  unfold quadForm
  have h1 : ∀ i ∈ Finset.range s.nd,
      ∑ j in Finset.range s.nd, v.getD i 0 * s.mom2R i j * v.getD j 0
        = lam * v.getD i 0 ^ 2 := by
    intro i hi
    have hrow : ∑ j in Finset.range s.nd, v.getD i 0 * s.mom2R i j * v.getD j 0
        = v.getD i 0 * ∑ j in Finset.range s.nd, s.mom2R i j * v.getD j 0 := by
      rw [Finset.mul_sum]
      exact Finset.sum_congr rfl (fun j _ => by ring)
    rw [hrow, heq i (Finset.mem_range.mp hi)]; ring
  rw [Finset.sum_congr rfl h1, ← Finset.mul_sum]
  have h2 : ∑ i in Finset.range s.nd, v.getD i 0 ^ 2 = 1 := by
    rw [← hlen, ← list_sq_sum_getD]; exact hunit
  rw [h2, mul_one]

lemma blockMom2vals :
    blockStat.mom2 0 0 = 1/4 ∧ blockStat.mom2 0 1 = 0 ∧
    blockStat.mom2 1 0 = 0 ∧ blockStat.mom2 1 1 = 1/4 := by
  refine ⟨?_, ?_, ?_, ?_⟩ <;>
    norm_num [blockStat, ScalarStatistic.make, ScalarStatistic.mom0,
      ScalarStatistic.mom1, ScalarStatistic.mom2, ScalarStatistic.mom2diag,
      ScalarStatistic.mom2off, ScalarStatistic.wgt, ScalarStatistic.zyx,
      ScalarStatistic.coord, nansum, List.filterMap_cons, List.zipWith3]

lemma blockMom2R :
    blockStat.mom2R 0 0 = 1/4 ∧ blockStat.mom2R 0 1 = 0 ∧
    blockStat.mom2R 1 0 = 0 ∧ blockStat.mom2R 1 1 = 1/4 := by
  unfold ScalarStatistic.mom2R
  rw [blockMom2vals.1, blockMom2vals.2.1, blockMom2vals.2.2.1,
    blockMom2vals.2.2.2]
  norm_num

lemma blockEig_contract : ∀ p, p ∈ blockEig → p.2.length = blockStat.nd ∧
    (p.2.map (fun x => x ^ 2)).sum = 1 ∧
    (∀ i, i < blockStat.nd →
      ∑ j in Finset.range blockStat.nd, blockStat.mom2R i j * p.2.getD j 0
        = p.1 * p.2.getD i 0) := by
  intro p hp
  have hnd : blockStat.nd = 2 := rfl
  have hp' : p = ((1 : ℝ)/4, [1, 0]) ∨ p = ((1 : ℝ)/4, [0, 1]) := by
    simpa [blockEig] using hp
  rcases hp' with h | h <;> subst h <;> refine ⟨rfl, by norm_num, ?_⟩ <;>
    · intro i hi
      rw [hnd] at hi ⊢
      interval_cases i <;>
        norm_num [Finset.sum_range_succ, blockMom2R.1, blockMom2R.2.1,
          blockMom2R.2.2.1, blockMom2R.2.2.2]

/-! The claims. -/

/-- C1: for every sample set, the `mom2` matrix entry (i, i) is the
NaN-excluding sum of `weight * (coord_i - mom1_i)^2` and entry (i, j) the
NaN-excluding sum of `weight * (coord_i - mom1_i) * (coord_j - mom1_j)`,
with `weight = value / mom0()` (both captured by `specMom2Entry`), and the
matrix is exactly symmetric: `mom2()[i][j] == mom2()[j][i]`. -/
theorem claim_C1 (s : ScalarStatistic) (i j : ℕ)
    (hi : i < s.nd) (hj : j < s.nd) :
    s.mom2 i j = specMom2Entry s i j ∧ s.mom2 i j = s.mom2 j i := by
  constructor
  · rw [specMom2Entry_eq_off]
    by_cases hij : i = j
    · subst hij
      simp [ScalarStatistic.mom2, mom2diag_eq_off]
    · by_cases hlt : i < j
      · simp [ScalarStatistic.mom2, hij, hlt]
      · simp [ScalarStatistic.mom2, hij, hlt, mom2off_comm s j i]
  · by_cases hij : i = j
    · subst hij; rfl
    · by_cases hlt : i < j
      · have h1 : ¬ j = i := fun h => hij h.symm
        have h2 : ¬ j < i := Nat.not_lt_of_lt hlt
        simp [ScalarStatistic.mom2, hij, hlt, h1, h2]
      · have hgt : j < i := Nat.lt_of_le_of_ne (Nat.le_of_not_lt hlt)
          (fun h => hij h.symm)
        have h1 : ¬ j = i := fun h => hij h.symm
        simp [ScalarStatistic.mom2, hij, hlt, h1, hgt]

/-- Witness for C1 at the concrete 2×2 block sample set, entry (0, 1). -/
theorem claim_C1_witness :
    0 < blockStat.nd ∧ 1 < blockStat.nd ∧
      (blockStat.mom2 0 1 = specMom2Entry blockStat 0 1 ∧
       blockStat.mom2 0 1 = blockStat.mom2 1 0) :=
  ⟨by decide, by decide, claim_C1 blockStat 0 1 (by decide) (by decide)⟩

/-- C2: on `values=[1,1,1,1]`, `indices=([0,0,1,1],[0,1,0,1])`,
`mom0() = 4`, `mom1() = [0.5, 0.5]` and `mom2() = [[0.25, 0], [0, 0.25]]`. -/
theorem claim_C2 :
    blockStat.mom0 = 4 ∧
    (blockStat.mom1 0 = 1/2 ∧ blockStat.mom1 1 = 1/2) ∧
    (blockStat.mom2 0 0 = 1/4 ∧ blockStat.mom2 0 1 = 0 ∧
     blockStat.mom2 1 0 = 0 ∧ blockStat.mom2 1 1 = 1/4) := by
  refine ⟨?_, ⟨?_, ?_⟩, ?_, ?_, ?_, ?_⟩ <;>
    norm_num [blockStat, ScalarStatistic.make, ScalarStatistic.mom0,
      ScalarStatistic.mom1, ScalarStatistic.mom2, ScalarStatistic.mom2diag,
      ScalarStatistic.mom2off, ScalarStatistic.wgt, ScalarStatistic.zyx,
      ScalarStatistic.coord, nansum, List.filterMap_cons, List.zipWith3]

/-- C5: the validation pass behaves as specified — if any absent declared
field is strict it fails with one configuration error carrying every
missing strict field, otherwise it succeeds with exactly one warning per
absent field (its key and substituted default) — and `ppv_catalog` runs
that pass exactly once, before any structure is processed: its outcome is
a function of the metadata alone, an error produces no records, and on
success every structure is processed after the single warning pass. -/
theorem claim_C5 {R : Type} (cl : List MetaData) (md : MDRecord)
    (compute : Struct → R) (structures : List Struct) :
    warn_missing_metadata cl md =
      (if (missing_metadata cl md).filter (fun m => m.strict) = [] then
        Except.ok ((missing_metadata cl md).map (fun m => (m.key, m.default)))
      else
        Except.error ((missing_metadata cl md).filter (fun m => m.strict))) ∧
    ppv_catalog compute structures md =
      (if (missing_metadata ppvFields md).filter (fun m => m.strict) = [] then
        Except.ok
          ((missing_metadata ppvFields md).map (fun m => (m.key, m.default)),
            structures.map compute)
      else
        Except.error ((missing_metadata ppvFields md).filter (fun m => m.strict))) := by
  refine ⟨warn_missing_eq cl md, ?_⟩
  unfold ppv_catalog
  rw [warn_missing_eq ppvFields md]
  by_cases h : (missing_metadata ppvFields md).filter (fun m => m.strict) = [] <;>
    simp [h]

/-- C6: `flux()` equals `bunit * dx^2 * dv * mom0()`, and is linear in
`mom0()` for fixed metadata: a statistic whose `mom0` is `c` times the
original's gives `c` times the flux, and scaling every sample value by `c`
scales `mom0` by `c`. -/
theorem claim_C6 (p : PPVStatistic) (c : ℚ) (s' : ScalarStatistic)
    (h : s'.mom0 = c * p.stat.mom0) :
    p.flux = mdval bunit p.metadata * mdval dx p.metadata ^ 2
        * mdval dv p.metadata * p.stat.mom0 ∧
    (PPVStatistic.mk s' p.metadata).flux = c * p.flux ∧
    (scaleValues c p.stat).mom0 = c * p.stat.mom0 := by
  refine ⟨by unfold PPVStatistic.flux; ring, ?_, ?_⟩
  · unfold PPVStatistic.flux
    show (mdval bunit p.metadata * mdval dx p.metadata ^ 2
      * mdval dv p.metadata) * s'.mom0 = _
    rw [h]; ring
  · exact nansum_scale c p.stat.values

/-- Witness for C6 at the 2×2 block sample set with empty metadata and
`c = 2`. -/
theorem claim_C6_witness :
    (scaleValues 2 blockStat).mom0 = 2 * blockStat.mom0 ∧
    ((PPVStatistic.mk blockStat []).flux =
        mdval bunit [] * mdval dx [] ^ 2 * mdval dv [] * blockStat.mom0 ∧
      (PPVStatistic.mk (scaleValues 2 blockStat) []).flux =
        2 * (PPVStatistic.mk blockStat []).flux ∧
      (scaleValues 2 blockStat).mom0 = 2 * blockStat.mom0) := by
  have h : (scaleValues 2 blockStat).mom0 = 2 * blockStat.mom0 :=
    nansum_scale 2 blockStat.values
  exact ⟨h, claim_C6 (PPVStatistic.mk blockStat []) 2 (scaleValues 2 blockStat) h⟩

/-- C10: every metadata field declared on `PPVStatistic` is non-strict, the
validation pass never raises the missing-required-fields error for any
record, an absent field reads as its default after a warning naming the
field and the default, and the defaults are 0 for `bmaj`/`bmin` and 1 for
the rest. -/
theorem claim_C10 (md : MDRecord) (m : MetaData) :
    (∀ f, f ∈ ppvFields → f.strict = false) ∧
    (∃ ws, warn_missing_metadata ppvFields md = Except.ok ws) ∧
    (m ∈ ppvFields → List.lookup m.key md = none →
      MetaData.read m md = Except.ok m.default ∧ mdval m md = m.default ∧
      (∃ ws, warn_missing_metadata ppvFields md = Except.ok ws ∧
        (m.key, m.default) ∈ ws)) ∧
    (bmaj.default = 0 ∧ bmin.default = 0 ∧ dx.default = 1 ∧ dv.default = 1 ∧
      vaxis.default = 1 ∧ bunit.default = 1 ∧ dist.default = 1) := by
  have hstrict : ∀ f, f ∈ ppvFields → f.strict = false := by
    intro f hf
    fin_cases hf <;> rfl
  have hreq : (missing_metadata ppvFields md).filter (fun m => m.strict) = [] := by
    apply List.filter_eq_nil_iff.mpr
    intro f hf
    have hf' : f ∈ ppvFields := List.mem_of_mem_filter hf
    simp [hstrict f hf']
  have hok : warn_missing_metadata ppvFields md =
      Except.ok ((missing_metadata ppvFields md).map (fun m => (m.key, m.default))) := by
    rw [warn_missing_eq, if_pos hreq]
  refine ⟨hstrict, ⟨_, hok⟩, ?_, rfl, rfl, rfl, rfl, rfl, rfl, rfl⟩
  intro hm habs
  refine ⟨?_, ?_, ⟨_, hok, ?_⟩⟩
  · unfold MetaData.read
    rw [if_neg, habs]
    · rfl
    · rw [hstrict m hm]; simp
  · unfold mdval; rw [habs]; rfl
  · apply List.mem_map_of_mem
    unfold missing_metadata
    apply List.mem_filter.mpr
    exact ⟨hm, by rw [habs]; rfl⟩

/-- Witness for C10 at the empty metadata record and the `bmaj` field. -/
theorem claim_C10_witness :
    bmaj.strict = false ∧
    (∃ ws, warn_missing_metadata ppvFields [] = Except.ok ws) ∧
    (MetaData.read bmaj [] = Except.ok bmaj.default ∧ mdval bmaj [] = bmaj.default ∧
      (∃ ws, warn_missing_metadata ppvFields [] = Except.ok ws ∧
        (bmaj.key, bmaj.default) ∈ ws)) ∧
    bmaj.default = 0 := by
  have h := claim_C10 [] bmaj
  have hmem : bmaj ∈ ppvFields := by simp [ppvFields]
  exact ⟨h.1 bmaj hmem, h.2.1, h.2.2.1 hmem rfl, h.2.2.2.1⟩

/-- C4 counterexample: constructing a `ScalarStatistic` from a 2-element
value array and a single 3-element coordinate array does not fail: the
source constructor performs no validation, so the object is created and
remains usable (its `mom0` evaluates to 3). -/
theorem claim_C4_counterexample :
    (ScalarStatistic.make [some 1, some 2] [[0, 1, 2]]).values.length = 2 ∧
    ((ScalarStatistic.make [some 1, some 2] [[0, 1, 2]]).coord 0).length = 3 ∧
    (ScalarStatistic.make [some 1, some 2] [[0, 1, 2]]).mom0 = 3 := by
  refine ⟨rfl, rfl, ?_⟩
  norm_num [ScalarStatistic.make, ScalarStatistic.mom0, nansum, List.filterMap_cons]

/-- C4 amended: construction performs no length validation — for every
value array and index tuple, mismatched or not, the constructor succeeds
and stores its inputs unchanged; errors can only surface downstream. -/
theorem claim_C4 (values : List (Option ℚ)) (indices : List (List ℚ)) :
    (ScalarStatistic.make values indices).values = values ∧
    (ScalarStatistic.make values indices).indices = indices :=
  ⟨rfl, rfl⟩

/-- C8: whenever the effective beam area `bmaj * bmin` exceeds the squared
magnitude of either sky axis, `sky_deconvolved_rad` evaluates to NaN (the
beam-unresolved result, `none` in the model) — a numeric domain outcome of
`np.sqrt` on a negative argument, not an exception: the function is total
and the NaN propagates through the remaining arithmetic. -/
theorem claim_C8 (bmajv bminv u a b : ℝ)
    (h : a ^ 2 < bmajv * bminv ∨ b ^ 2 < bmajv * bminv) :
    sky_deconvolved_rad bmajv bminv u a b = none := by
  have hneg : ∀ x : ℝ, x < 0 → nsqrt (some x) = none := by
    intro x hx
    simp [nsqrt, hx]
  unfold sky_deconvolved_rad
  rcases h with h | h
  · rw [hneg (a ^ 2 - bmajv * bminv) (by linarith)]
    rfl
  · rw [hneg (b ^ 2 - bmajv * bminv) (by linarith)]
    cases nsqrt (some (a ^ 2 - bmajv * bminv)) <;> rfl

/-- Witness for C8: a beam with `bmaj = bmin = 2` and a major-axis
magnitude 1 smaller than the beam. -/
theorem claim_C8_witness :
    ((1 : ℝ) ^ 2 < 2 * 2 ∨ (5 : ℝ) ^ 2 < 2 * 2) ∧
      sky_deconvolved_rad 2 2 1 1 5 = none :=
  ⟨Or.inl (by norm_num), claim_C8 2 2 1 1 5 (Or.inl (by norm_num))⟩

/-- C3 evaluation at the failing input: with `vaxis = 1` and a projected
major axis `(3, 7)`, the pair handed to `np.arctan2` is `(1, 7)` — the
first component is the `vaxis` tag that `_sky_paxes` prepended
(`a.insert(0, vaxis)`), not the in-plane component 3 the spec describes;
with `vaxis = 2` it is `(2, 3)`; only `vaxis = 0` yields the in-plane
pair `(3, 7)`. -/
theorem claim_C3_eval :
    sky_pa_args 0 [(3 : ℝ), 7] = (3, 7) ∧
    sky_pa_args 1 [(3 : ℝ), 7] = (1, 7) ∧
    sky_pa_args 2 [(3 : ℝ), 7] = (2, 3) ∧
    ((1 : ℝ), (7 : ℝ)) ≠ ((3 : ℝ), (7 : ℝ)) := by
  refine ⟨?_, ?_, ?_, ?_⟩ <;>
    norm_num [sky_pa_args, sky_paxis_tagged, List.eraseIdx, Prod.ext_iff]

/-- C9: `mom2_along` never mutates the caller's direction array — the
in-place normalization `row /= norm(row)` acts on the fresh copy made by
`astype(np.float)`, so after the call the array behind the caller's
reference is unchanged. -/
theorem claim_C9 (s : ScalarStatistic) (σ : Store) (direction : ℕ)
    (h : direction < σ.length) :
    readArr (mom2_along_st s σ direction).1 direction = readArr σ direction := by
  unfold mom2_along_st allocArr writeArr readArr
  simp only []
  rw [List.getD_eq_getElem?_getD, List.getD_eq_getElem?_getD]
  rw [List.getElem?_set_ne (by omega)]
  rw [List.getElem?_append, if_pos h]

/-- Witness for C9: a one-array heap holding the caller's direction
`[3, 4]`. -/
theorem claim_C9_witness :
    0 < ([[(3 : ℝ), 4]] : Store).length ∧
      readArr (mom2_along_st blockStat [[(3 : ℝ), 4]] 0).1 0 =
        readArr [[(3 : ℝ), 4]] 0 :=
  ⟨by norm_num, claim_C9 blockStat [[(3 : ℝ), 4]] 0 (by norm_num)⟩

/-- C7: given the contract of `np.linalg.eig` on the symmetric matrix
`mom2()` — `eig` lists its (eigenvalue, unit eigenvector) pairs and
`order` is the ascending `argsort` of the eigenvalues — `paxes()` returns
unit eigenvectors of `mom2()` ordered by descending eigenvalue, and
`mom2_along` of the k-th returned axis equals the k-th eigenvalue in
descending order. -/
theorem claim_C7 (s : ScalarStatistic) (eig : List (ℝ × List ℝ))
    (order : List ℕ) (k : ℕ)
    (hk : k < order.length)
    (hperm : order.Perm (List.range eig.length))
    (hsorted : List.Sorted (· ≤ ·) (order.map (fun o => (eig.getD o (0, [])).1)))
    (heig : ∀ p, p ∈ eig → p.2.length = s.nd ∧
      (p.2.map (fun x => x ^ 2)).sum = 1 ∧
      (∀ i, i < s.nd →
        ∑ j in Finset.range s.nd, s.mom2R i j * p.2.getD j 0
          = p.1 * p.2.getD i 0)) :
    List.Sorted (· ≥ ·)
      ((order.map (fun o => (eig.getD o (0, [])).1)).reverse) ∧
    ((paxes_model eig order).getD k []).length = s.nd ∧
    (((paxes_model eig order).getD k []).map (fun x => x ^ 2)).sum = 1 ∧
    (∀ i, i < s.nd →
      ∑ j in Finset.range s.nd,
          s.mom2R i j * ((paxes_model eig order).getD k []).getD j 0
        = ((order.map (fun o => (eig.getD o (0, [])).1)).reverse).getD k 0
            * ((paxes_model eig order).getD k []).getD i 0) ∧
    mom2_along1 s ((paxes_model eig order).getD k [])
      = ((order.map (fun o => (eig.getD o (0, [])).1)).reverse).getD k 0 := by
  have hk' : k < order.reverse.length := by
    rw [List.length_reverse]; exact hk
  have haxes : (paxes_model eig order).getD k []
      = (eig.getD (order.reverse.getD k 0) (0, [])).2 := by
    unfold paxes_model
    rw [List.getD_eq_getElem _ _ (by simpa using hk'), List.getElem_map,
      List.getD_eq_getElem _ _ hk']
  have hlams : ((order.map (fun o => (eig.getD o (0, [])).1)).reverse).getD k 0
      = (eig.getD (order.reverse.getD k 0) (0, [])).1 := by
    rw [← List.map_reverse]
    rw [List.getD_eq_getElem _ _ (by simpa using hk'), List.getElem_map,
      List.getD_eq_getElem _ _ hk']
  have ho_mem : order.reverse.getD k 0 ∈ order := by
    rw [← List.mem_reverse]
    rw [List.getD_eq_getElem _ _ hk']
    exact List.getElem_mem hk'
  have ho_lt : order.reverse.getD k 0 < eig.length :=
    List.mem_range.mp (hperm.mem_iff.mp ho_mem)
  have hpair_mem : eig.getD (order.reverse.getD k 0) (0, []) ∈ eig := by
    rw [List.getD_eq_getElem _ _ ho_lt]
    exact List.getElem_mem ho_lt
  obtain ⟨hlen, hunit, heq⟩ := heig _ hpair_mem
  refine ⟨?_, ?_, ?_, ?_, ?_⟩
  · exact List.pairwise_reverse.mpr hsorted
  · rw [haxes]; exact hlen
  · rw [haxes]; exact hunit
  · intro i hi
    rw [haxes, hlams]
    exact heq i hi
  · rw [haxes, hlams, mom2_along1_eq, unit_normalizeRow _ hunit]
    exact quadForm_eigvec s _ _ hlen hunit heq

/-- Witness for C7 at the 2×2 block sample set with the concrete
eigendecomposition `blockEig`, `order = [0, 1]` and `k = 0`. -/
theorem claim_C7_witness :
    0 < ([0, 1] : List ℕ).length ∧
    ([0, 1] : List ℕ).Perm (List.range blockEig.length) ∧
    (List.Sorted (· ≥ ·)
      ((([0, 1] : List ℕ).map (fun o => (blockEig.getD o (0, [])).1)).reverse) ∧
     ((paxes_model blockEig [0, 1]).getD 0 []).length = blockStat.nd ∧
     (((paxes_model blockEig [0, 1]).getD 0 []).map (fun x => x ^ 2)).sum = 1 ∧
     (∀ i, i < blockStat.nd →
       ∑ j in Finset.range blockStat.nd,
           blockStat.mom2R i j * ((paxes_model blockEig [0, 1]).getD 0 []).getD j 0
         = ((([0, 1] : List ℕ).map
              (fun o => (blockEig.getD o (0, [])).1)).reverse).getD 0 0
             * ((paxes_model blockEig [0, 1]).getD 0 []).getD i 0) ∧
     mom2_along1 blockStat ((paxes_model blockEig [0, 1]).getD 0 [])
       = ((([0, 1] : List ℕ).map
            (fun o => (blockEig.getD o (0, [])).1)).reverse).getD 0 0) := by
  have hperm : ([0, 1] : List ℕ).Perm (List.range blockEig.length) := by
    have : List.range blockEig.length = [0, 1] := rfl
    rw [this]
  have hsorted : List.Sorted (· ≤ ·)
      (([0, 1] : List ℕ).map (fun o => (blockEig.getD o (0, [])).1)) := by
    simp [blockEig, List.sorted_cons]
  exact ⟨by norm_num, hperm,
    claim_C7 blockStat blockEig [0, 1] 0 (by norm_num) hperm hsorted
      blockEig_contract⟩

end Astro
